import Mathlib

/-!
Verification of the Live Duplex Audio Session Engine of ECHO.AI_OS
(src/services/geminiService.ts), shallowly embedded in Lean 4.

The embedding follows the source:
* `AudioState` models the `GeminiService` fields `nextStartTime`,
  `activeSources` and `currentAudioSettings.speed`;
* `scheduleChunk` models the inline-audio branch of the `onmessage`
  callback (lines 143-153);
* `sourceEnded` models the `ended` listener (line 150);
* `stopAudio` models `GeminiService.stopAudio` (lines 205-209);
* `sessionStop` models the `stop` closure returned by `connectLive`
  (lines 197-201);
* `connectLiveStart` models the start of `connectLive` up to the
  `getUserMedia` try/catch (lines 106-115);
* `dispatchToolCalls` models the tool-call loop (lines 134-139);
* `transcriptStep` models transcription accumulation and turn
  completion (lines 157-171).

Times and durations are rationals (seconds).
-/

namespace EchoOS

/-- Playback scheduler state: the fields `nextStartTime` (the output
clock position), `activeSources` (the set of live source nodes,
modelled as their identity ids) and `currentAudioSettings.speed`
(the playback-rate multiplier) of `GeminiService`. -/
structure AudioState where
  nextStartTime : ℚ
  activeSources : List Nat
  speed : ℚ
deriving DecidableEq, Repr

/-- The inline-audio branch of `onmessage` (lines 143-153):
`nextStartTime = max(nextStartTime, currentTime)`; a source node is
created, `source.start(nextStartTime)` marks its start time;
`nextStartTime += audioBuffer.duration / speed`; the source is added
to `activeSources`.  Returns the new state and the start time passed
to `source.start`. -/
def scheduleChunk (s : AudioState) (now dur : ℚ) (srcId : Nat) :
    AudioState × ℚ :=
  let startTime := max s.nextStartTime now
  ({ s with
      nextStartTime := startTime + dur / s.speed
      activeSources := s.activeSources ++ [srcId] },
   startTime)

/-- The `ended` listener registered on each source (line 150):
`this.activeSources.delete(source)`.  Ids are object identities, so
set deletion is removal of that id. -/
def sourceEnded (s : AudioState) (srcId : Nat) : AudioState :=
  { s with activeSources := s.activeSources.filter (· != srcId) }

/-- `GeminiService.stopAudio` (lines 205-209): every active source has
`stop()` called on it (each wrapped in try/catch), the set is cleared,
and `nextStartTime` is set to `0`.  The second component lists the
sources on which `stop()` was invoked, in iteration order. -/
def stopAudio (s : AudioState) : AudioState × List Nat :=
  ({ s with activeSources := [], nextStartTime := 0 },
   s.activeSources)

/-- Scheduler state after the first `k` chunks of a stream have been
handled, where chunk `k` arrives at wall-clock time `now k` with
decoded duration `dur k` (its source id is its index). -/
def schedStates (s0 : AudioState) (now dur : ℕ → ℚ) : ℕ → AudioState
  | 0 => s0
  | k + 1 => (scheduleChunk (schedStates s0 now dur k) (now k) (dur k) k).1

/-- Start time assigned to chunk `k` of the stream. -/
def schedStart (s0 : AudioState) (now dur : ℕ → ℚ) (k : ℕ) : ℚ :=
  (scheduleChunk (schedStates s0 now dur k) (now k) (dur k) k).2

/-- Sum of the durations of the first `k` chunks. -/
def durSum (dur : ℕ → ℚ) : ℕ → ℚ
  | 0 => 0
  | k + 1 => durSum dur k + dur k

/-- C1: scheduling a chunk starts it at `max(clockPosition, now)`,
advances the clock by `duration / rate` past the start time, keeps the
rate unchanged, registers the source in the active-playback set, and
the `ended` listener removes it from the set on natural completion. -/
theorem scheduleChunk_contract (s : AudioState) (now dur : ℚ) (srcId : Nat) :
    (scheduleChunk s now dur srcId).2 = max s.nextStartTime now ∧
    (scheduleChunk s now dur srcId).1.nextStartTime
      = max s.nextStartTime now + dur / s.speed ∧
    (scheduleChunk s now dur srcId).1.speed = s.speed ∧
    srcId ∈ (scheduleChunk s now dur srcId).1.activeSources ∧
    (sourceEnded (scheduleChunk s now dur srcId).1 srcId).activeSources
      = s.activeSources.filter (· != srcId) := by
  refine ⟨rfl, rfl, rfl, ?_, ?_⟩
  · simp [scheduleChunk]
  · simp [scheduleChunk, sourceEnded, List.filter_append]

/-- C3 counterexample: `stopAudio` sets the clock position to `0`, not
to the wall-clock time of the call.  Calling it at wall-clock time `2`
on a state with two active sources leaves `nextStartTime = 0 ≠ 2`. -/
theorem stopAudio_not_wallclock_reset :
    ¬ ((stopAudio ⟨5, [1, 2], 1⟩).1.nextStartTime = 2) := by
  decide

/-- C3 (amended): `stopAudio` invokes `stop()` on every chunk in the
active-playback set, leaves the set empty, and resets the clock
position to `0` (not to the wall-clock call time); it is idempotent
and safe on an empty set. -/
theorem stopAudio_clears_and_zeroes (s : AudioState) :
    (stopAudio s).2 = s.activeSources ∧
    (stopAudio s).1.activeSources = [] ∧
    (stopAudio s).1.nextStartTime = 0 ∧
    (stopAudio (stopAudio s).1).1 = (stopAudio s).1 := by
  refine ⟨rfl, rfl, rfl, rfl⟩

/-- Arrival times of the three-chunk scenario: t = 0, 0.3, 2.0. -/
def scenarioNow : ℕ → ℚ
  | 0 => 0
  | 1 => 3 / 10
  | _ => 2

/-- Durations of the three-chunk scenario: 1.0s, 0.5s, 2.0s. -/
def scenarioDur : ℕ → ℚ
  | 0 => 1
  | 1 => 1 / 2
  | _ => 2

/-- C6 counterexample: with chunks of duration 1.0, 0.5, 2.0 arriving
at t = 0, 0.3, 2.0 at rate 1.0 from a fresh state, the third start
time is `max(1.5, 2.0) = 2.0`, not the claimed `1.5`. -/
theorem three_chunk_start_not_as_claimed :
    ¬ (schedStart ⟨0, [], 1⟩ scenarioNow scenarioDur 0 = 0 ∧
       schedStart ⟨0, [], 1⟩ scenarioNow scenarioDur 1 = 1 ∧
       schedStart ⟨0, [], 1⟩ scenarioNow scenarioDur 2 = 3 / 2) := by
  norm_num [schedStart, schedStates, scheduleChunk, scenarioNow, scenarioDur,
    max_def]

/-- C6 (amended): the three start times are 0.0, 1.0 and 2.0: the
third chunk arrives after the clock position 1.5, so
`max(clock, now)` starts it at its arrival time 2.0. -/
theorem three_chunk_start_times :
    schedStart ⟨0, [], 1⟩ scenarioNow scenarioDur 0 = 0 ∧
    schedStart ⟨0, [], 1⟩ scenarioNow scenarioDur 1 = 1 ∧
    schedStart ⟨0, [], 1⟩ scenarioNow scenarioDur 2 = 2 := by
  norm_num [schedStart, schedStates, scheduleChunk, scenarioNow, scenarioDur,
    max_def]

/-- The playback-rate multiplier is unchanged by scheduling. -/
lemma schedStates_speed (s0 : AudioState) (now dur : ℕ → ℚ) (k : ℕ) :
    (schedStates s0 now dur k).speed = s0.speed := by
  induction k with
  | zero => rfl
  | succ k ih => simpa [schedStates, scheduleChunk] using ih

/-- Advancing the clock: after chunk `k`, the clock position is its
start time plus its duration divided by the rate. -/
lemma schedStates_succ_clock (s0 : AudioState) (now dur : ℕ → ℚ) (k : ℕ) :
    (schedStates s0 now dur (k + 1)).nextStartTime
      = schedStart s0 now dur k + dur k / s0.speed := by
  show (scheduleChunk (schedStates s0 now dur k) (now k) (dur k) k).1.nextStartTime = _
  simp [scheduleChunk, schedStart, schedStates_speed]

/-- Each start time is at least the clock position at scheduling. -/
lemma clock_le_schedStart (s0 : AudioState) (now dur : ℕ → ℚ) (k : ℕ) :
    (schedStates s0 now dur k).nextStartTime ≤ schedStart s0 now dur k :=
  le_max_left _ _

/-- The output clock is monotone along a schedule of nonnegative
durations at a positive rate. -/
lemma schedStates_clock_mono (s0 : AudioState) (now dur : ℕ → ℚ)
    (hsp : 0 < s0.speed) (hd : ∀ i, 0 ≤ dur i) :
    Monotone fun k => (schedStates s0 now dur k).nextStartTime := by
  apply monotone_nat_of_le_succ
  intro k
  rw [schedStates_succ_clock]
  have h1 := clock_le_schedStart s0 now dur k
  have h2 : 0 ≤ dur k / s0.speed := div_nonneg (hd k) hsp.le
  linarith

/-- The clock after `k` chunks is at least the initial clock plus the
total scheduled duration divided by the rate. -/
lemma schedStates_clock_lb (s0 : AudioState) (now dur : ℕ → ℚ) (k : ℕ) :
    s0.nextStartTime + durSum dur k / s0.speed
      ≤ (schedStates s0 now dur k).nextStartTime := by
  induction k with
  | zero => simp [schedStates, durSum]
  | succ k ih =>
      rw [schedStates_succ_clock, durSum, add_div]
      have h1 := clock_le_schedStart s0 now dur k
      linarith

/-- C2: for chunks of nonnegative durations `dur 0, dur 1, ...`
scheduled at a fixed positive rate from a state with a nonnegative
clock, the `k`-th start time is at least the sum of the earlier
durations divided by the rate, consecutive playback intervals are
back-to-back, and the playback intervals of distinct chunks are
disjoint. -/
theorem schedule_gapless_no_overlap (s0 : AudioState) (now dur : ℕ → ℚ)
    (hsp : 0 < s0.speed) (hd : ∀ i, 0 ≤ dur i) (h0 : 0 ≤ s0.nextStartTime) :
    (∀ k, durSum dur k / s0.speed ≤ schedStart s0 now dur k) ∧
    (∀ j k, j < k →
      schedStart s0 now dur j + dur j / s0.speed ≤ schedStart s0 now dur k) ∧
    (∀ j k, j ≠ k →
      Disjoint
        (Set.Ico (schedStart s0 now dur j)
          (schedStart s0 now dur j + dur j / s0.speed))
        (Set.Ico (schedStart s0 now dur k)
          (schedStart s0 now dur k + dur k / s0.speed))) := by
  have hchain : ∀ j k : ℕ, j < k →
      schedStart s0 now dur j + dur j / s0.speed ≤ schedStart s0 now dur k := by
    intro j k hjk
    have h1 : (schedStates s0 now dur (j + 1)).nextStartTime
        = schedStart s0 now dur j + dur j / s0.speed :=
      schedStates_succ_clock s0 now dur j
    have h2 : (schedStates s0 now dur (j + 1)).nextStartTime
        ≤ (schedStates s0 now dur k).nextStartTime :=
      schedStates_clock_mono s0 now dur hsp hd hjk
    have h3 := clock_le_schedStart s0 now dur k
    linarith
  refine ⟨?_, hchain, ?_⟩
  · intro k
    have h1 := schedStates_clock_lb s0 now dur k
    have h2 := clock_le_schedStart s0 now dur k
    linarith
  · intro j k hjk
    rcases hjk.lt_or_lt with h | h
    · rw [Set.Ico_disjoint_Ico]
      exact le_trans (min_le_left _ _) (le_trans (hchain j k h) (le_max_right _ _))
    · rw [Set.Ico_disjoint_Ico]
      exact le_trans (min_le_right _ _) (le_trans (hchain k j h) (le_max_left _ _))

/-- C2 witness: a unit-duration stream at rate 1 from a fresh state;
chunk 3 starts no earlier than 3 seconds in, and the intervals of
chunks 0 and 1 are disjoint. -/
theorem schedule_gapless_no_overlap_witness :
    durSum (fun _ => (1 : ℚ)) 3 / (1 : ℚ)
      ≤ schedStart ⟨0, [], 1⟩ (fun _ => 0) (fun _ => 1) 3 ∧
    Disjoint
      (Set.Ico (schedStart ⟨0, [], 1⟩ (fun _ => 0) (fun _ => 1) 0)
        (schedStart ⟨0, [], 1⟩ (fun _ => 0) (fun _ => 1) 0 + (1 : ℚ) / 1))
      (Set.Ico (schedStart ⟨0, [], 1⟩ (fun _ => 0) (fun _ => 1) 1)
        (schedStart ⟨0, [], 1⟩ (fun _ => 0) (fun _ => 1) 1 + (1 : ℚ) / 1)) := by
  have h := schedule_gapless_no_overlap ⟨0, [], 1⟩ (fun _ => 0) (fun _ => 1)
    (by norm_num) (fun i => by norm_num) (by norm_num)
  exact ⟨h.1 3, h.2.2 0 1 (by norm_num)⟩

/-- An element of `message.toolCall.functionCalls`: id, name, and the
(opaque) serialized arguments. -/
structure FunctionCall where
  id : String
  name : String
  args : String
deriving DecidableEq, Repr

/-- Observable actions of the tool-call loop, in program order. -/
inductive DispatchEvent where
  /-- `callbacks.onToolCall(fc.name, fc.args)` is awaited. -/
  | invoked (id name : String)
  /-- `sendToolResponse` is handed the correlated response
  `\x7b id, name, response: \x7b result \x7d \x7d`. -/
  | responseSent (id name result : String)
  /-- the awaited handler promise rejected; the exception propagates
  out of the `onmessage` async function. -/
  | raised (e : String)
deriving DecidableEq, Repr

/-- The tool-call loop of `onmessage` (lines 134-139):
`for (const fc of functionCalls) \x7b const result = await
callbacks.onToolCall(fc.name, fc.args); sessionPromise.then(s =>
s.sendToolResponse(...)) \x7d`.  There is no try/catch: a rejected
handler promise aborts the loop (and the rest of the message handler)
without sending a response for that call. -/
def dispatchToolCalls (handler : String → String → Except String String) :
    List FunctionCall → List DispatchEvent
  | [] => []
  | fc :: rest =>
      match handler fc.name fc.args with
      | .ok result =>
          .invoked fc.id fc.name :: .responseSent fc.id fc.name result ::
            dispatchToolCalls handler rest
      | .error e => [.invoked fc.id fc.name, .raised e]

/-- Ids of the responses sent by a dispatch trace, in send order. -/
def responseIds : List DispatchEvent → List String
  | [] => []
  | .responseSent id _ _ :: rest => id :: responseIds rest
  | _ :: rest => responseIds rest

/-- Whether a handler outcome is a fulfilled promise. -/
def handlerOk : Except String String → Bool
  | .ok _ => true
  | .error _ => false

/-- Result carried by a fulfilled handler outcome. -/
def handlerValue : Except String String → String
  | .ok r => r
  | .error e => e

/-- A handler that rejects on the name `"boom"`. -/
def boomHandler : String → String → Except String String :=
  fun name _ => if name = "boom" then .error "handler failed" else .ok "done"

/-- C4 counterexample: a message with the single tool call
`(id "1", name "boom")` whose handler rejects does not produce exactly
one response carrying id `"1"` — the trace sends no response at all
(the rejection propagates; no error-shaped response is sent). -/
theorem failed_call_gets_no_response :
    ¬ (responseIds (dispatchToolCalls boomHandler [⟨"1", "boom", "{}"⟩])
        = ["1"]) ∧
    responseIds (dispatchToolCalls boomHandler [⟨"1", "boom", "{}"⟩]) = [] := by
  refine ⟨by decide, by decide⟩

/-- C4 (amended): the dispatcher sends exactly one response, carrying
the request's id, for each request of the longest prefix whose
handlers all succeed; the first handler failure aborts the loop, so
the failing request and all later requests of the message get no
response. -/
theorem dispatch_responds_to_ok_prefix
    (handler : String → String → Except String String)
    (calls : List FunctionCall) :
    responseIds (dispatchToolCalls handler calls)
      = ((calls.takeWhile fun fc => handlerOk (handler fc.name fc.args)).map
          FunctionCall.id) := by
  induction calls with
  | nil => rfl
  | cons fc rest ih =>
      by_cases h : handlerOk (handler fc.name fc.args) = true
      · cases hh : handler fc.name fc.args with
        | ok r => simp [dispatchToolCalls, responseIds, List.takeWhile_cons, hh,
            handlerOk, ih]
        | error e => rw [hh] at h; simp [handlerOk] at h
      · cases hh : handler fc.name fc.args with
        | ok r => rw [hh] at h; simp [handlerOk] at h
        | error e => simp [dispatchToolCalls, responseIds, List.takeWhile_cons, hh,
            handlerOk]

/-- C9: when every handler of a message succeeds, the loop is strictly
sequential: the trace is exactly, for each request in message order,
its handler invocation immediately followed by its correlated
response — so the handler of request `k+1` runs only after the
response for request `k` was issued, and responses are in request
order. -/
theorem dispatch_sequential_in_order
    (handler : String → String → Except String String)
    (calls : List FunctionCall)
    (hok : ∀ fc ∈ calls, handlerOk (handler fc.name fc.args) = true) :
    dispatchToolCalls handler calls
      = calls.flatMap fun fc =>
          [DispatchEvent.invoked fc.id fc.name,
           DispatchEvent.responseSent fc.id fc.name
             (handlerValue (handler fc.name fc.args))] := by
  induction calls with
  | nil => rfl
  | cons fc rest ih =>
      have hfc := hok fc (List.mem_cons_self fc rest)
      cases hh : handler fc.name fc.args with
      | ok r =>
          have hrest : ∀ g ∈ rest, handlerOk (handler g.name g.args) = true :=
            fun g hg => hok g (List.mem_cons_of_mem fc hg)
          simp [dispatchToolCalls, hh, ih hrest, handlerValue]
      | error e => rw [hh] at hfc; simp [handlerOk] at hfc

/-- C9 witness: two calls with ids `"a"` and `"b"` under an
always-succeeding handler dispatch as invoke-respond, invoke-respond,
in message order. -/
theorem dispatch_sequential_in_order_witness :
    dispatchToolCalls (fun _ _ => .ok "r")
        [⟨"a", "f", "x"⟩, ⟨"b", "g", "y"⟩]
      = [.invoked "a" "f", .responseSent "a" "f" "r",
         .invoked "b" "g", .responseSent "b" "g" "r"] := by
  have h := dispatch_sequential_in_order (fun _ _ => .ok "r")
    [⟨"a", "f", "x"⟩, ⟨"b", "g", "y"⟩] (fun fc _ => rfl)
  simpa [List.flatMap, handlerValue] using h

/-- Resources of an established live session: the microphone stream's
tracks, the capture (input) audio context, the playback scheduler
state, and the duplex channel (the live session object). -/
structure SessionState where
  micTracksStopped : Bool
  inputCtxClosed : Bool
  audio : AudioState
  channelClosed : Bool
deriving DecidableEq, Repr

/-- The `stop` closure returned by `connectLive` (lines 197-201):
`stream.getTracks().forEach(t => t.stop()); inputCtx.close().catch(()
=> \x7b\x7d); this.stopAudio();`.  `closeRejects` is whether
`inputCtx.close()` rejects; the rejection is swallowed by `.catch`, so
the remaining teardown still runs.  No call closes the live session
itself. -/
def sessionStop (closeRejects : Bool) (s : SessionState) : SessionState :=
  let s1 : SessionState := { s with micTracksStopped := true }
  let s2 : SessionState := { s1 with inputCtxClosed := !closeRejects }
  { s2 with audio := (stopAudio s2.audio).1 }

/-- C7 counterexample: stopping a fully live session (two active
sources, channel open) leaves the duplex channel open — `stop` never
closes the session, contradicting the claim that it does. -/
theorem stop_leaves_channel_open :
    ¬ ((sessionStop false ⟨false, false, ⟨5, [1, 2], 1⟩, false⟩).channelClosed
        = true) := by
  decide

/-- C7 (amended): `stop()` stops the capture tracks, closes the
capture audio context (unless its close rejects, which is swallowed),
and tears the scheduler down (all active sources stopped, set cleared,
clock reset) — the later steps run even if the close failed — but it
does not close the duplex channel. -/
theorem sessionStop_releases_all_but_channel (closeRejects : Bool)
    (s : SessionState) :
    (sessionStop closeRejects s).micTracksStopped = true ∧
    (sessionStop closeRejects s).inputCtxClosed = !closeRejects ∧
    (sessionStop closeRejects s).audio.activeSources = [] ∧
    (sessionStop closeRejects s).audio.nextStartTime = 0 ∧
    (sessionStop closeRejects s).channelClosed = s.channelClosed := by
  refine ⟨rfl, rfl, rfl, rfl, rfl⟩

/-- Observable outcome of the start of `connectLive` up to and
including the `getUserMedia` try/catch (lines 106-115). -/
structure StartOutcome where
  inputCtxCreated : Bool
  inputCtxClosed : Bool
  errorRaised : Option String
  sessionReturned : Bool
deriving DecidableEq, Repr

/-- The start of `connectLive` (lines 106-115): the output context is
ensured, then `const inputCtx = new AudioContext(\x7b sampleRate:
16000 \x7d)` is created, then `getUserMedia` is attempted.  On
failure, `callbacks.onError(new Error("MIC_ACCESS_DENIED"))` fires and
`null` is returned — with no `inputCtx.close()` on that path. -/
def connectLiveStart (micGranted : Bool) : StartOutcome :=
  if micGranted then
    { inputCtxCreated := true
      inputCtxClosed := false
      errorRaised := none
      sessionReturned := true }
  else
    { inputCtxCreated := true
      inputCtxClosed := false
      errorRaised := some "MIC_ACCESS_DENIED"
      sessionReturned := false }

/-- C8 counterexample: when microphone acquisition fails, the capture
audio context created just before the attempt is not released. -/
theorem mic_failure_leaks_input_ctx :
    ¬ ((connectLiveStart false).inputCtxClosed = true) := by
  decide

/-- C8 (amended): a `getUserMedia` failure surfaces
`MIC_ACCESS_DENIED` to the caller and ends the attempt (returns
`null`), but the capture audio context created before the acquisition
attempt is left open (leaked), so not every acquired resource is
released on this error path. -/
theorem mic_failure_surfaces_error_keeps_ctx :
    (connectLiveStart false).errorRaised = some "MIC_ACCESS_DENIED" ∧
    (connectLiveStart false).sessionReturned = false ∧
    (connectLiveStart false).inputCtxCreated = true ∧
    (connectLiveStart false).inputCtxClosed = false := by
  refine ⟨rfl, rfl, rfl, rfl⟩

/-- The transcription-relevant part of a `LiveServerMessage`:
`serverContent.outputTranscription?.text`,
`serverContent.inputTranscription?.text` and
`serverContent.turnComplete`. -/
structure ServerMessage where
  outputTranscription : Option String
  inputTranscription : Option String
  turnComplete : Bool
deriving DecidableEq, Repr

/-- The two transcript accumulators `currentInputTranscription` and
`currentOutputTranscription` of `connectLive`. -/
structure TranscriptState where
  currentInput : String
  currentOutput : String
deriving DecidableEq, Repr

/-- Callback invocations observable from the transcription code. -/
inductive TranscriptEvent where
  /-- `callbacks.onTranscription(text, isUser)`. -/
  | transcription (text : String) (isUser : Bool)
  /-- `callbacks.onTurnComplete(inputText, outputText)`. -/
  | turnDone (inputText outputText : String)
deriving DecidableEq, Repr

/-- Transcription handling of `onmessage` (lines 157-171): an
`outputTranscription` fragment is appended to the output buffer and
reported; otherwise (`else if`) an `inputTranscription` fragment is
appended to the input buffer and reported; then, on `turnComplete`,
`callbacks.onTurnComplete(currentInput, currentOutput)` fires and both
buffers are reset to `""`. -/
def transcriptStep (ts : TranscriptState) (m : ServerMessage) :
    TranscriptState × List TranscriptEvent :=
  let step1 : TranscriptState × List TranscriptEvent :=
    match m.outputTranscription with
    | some t =>
        ({ ts with currentOutput := ts.currentOutput ++ t },
         [TranscriptEvent.transcription (ts.currentOutput ++ t) false])
    | none =>
        match m.inputTranscription with
        | some t =>
            ({ ts with currentInput := ts.currentInput ++ t },
             [TranscriptEvent.transcription (ts.currentInput ++ t) true])
        | none => (ts, [])
  if m.turnComplete then
    (⟨"", ""⟩,
     step1.2 ++ [TranscriptEvent.turnDone step1.1.currentInput
        step1.1.currentOutput])
  else
    (step1.1, step1.2)

/-- Processing a sequence of inbound messages, collecting the
callback events in order. -/
def transcriptRun (ts : TranscriptState) :
    List ServerMessage → TranscriptState × List TranscriptEvent
  | [] => (ts, [])
  | m :: ms =>
      let r1 := transcriptStep ts m
      let r2 := transcriptRun r1.1 ms
      (r2.1, r1.2 ++ r2.2)

/-- The output-direction fragment a message contributes to its buffer
(empty when the message carries none). -/
def appendedOutput (m : ServerMessage) : String :=
  (m.outputTranscription).getD ""

/-- The input-direction fragment a message contributes to its buffer:
because of the `else if`, a message that also carries an output
fragment contributes nothing to the input buffer. -/
def appendedInput (m : ServerMessage) : String :=
  match m.outputTranscription with
  | some _ => ""
  | none => (m.inputTranscription).getD ""

/-- Concatenation of a list of strings, in order. -/
def concatAll : List String → String
  | [] => ""
  | s :: rest => s ++ concatAll rest

/-- Whether an event is a turn-completion callback. -/
def isTurnDone : TranscriptEvent → Bool
  | .turnDone _ _ => true
  | _ => false

lemma concatAll_append (l1 l2 : List String) :
    concatAll (l1 ++ l2) = concatAll l1 ++ concatAll l2 := by
  induction l1 with
  | nil => simp [concatAll, String.empty_append]
  | cons s rest ih => simp [concatAll, ih, String.append_assoc]

/-- A step on a message without `turnComplete` appends exactly the
per-direction contributed fragments to the buffers. -/
lemma transcriptStep_state (ts : TranscriptState) (m : ServerMessage)
    (h : m.turnComplete = false) :
    (transcriptStep ts m).1
      = ⟨ts.currentInput ++ appendedInput m,
         ts.currentOutput ++ appendedOutput m⟩ := by
  rcases m with ⟨o, i, tc⟩
  cases tc
  · cases o with
    | some t => simp [transcriptStep, appendedInput, appendedOutput,
        String.append_empty]
    | none =>
        cases i with
        | some t => simp [transcriptStep, appendedInput, appendedOutput,
            String.append_empty]
        | none => simp [transcriptStep, appendedInput, appendedOutput,
            String.append_empty]
  · simp at h

/-- A step on a message without `turnComplete` emits no
turn-completion event. -/
lemma transcriptStep_no_turnDone (ts : TranscriptState) (m : ServerMessage)
    (h : m.turnComplete = false) :
    (transcriptStep ts m).2.filter isTurnDone = [] := by
  rcases m with ⟨o, i, tc⟩
  cases tc
  · cases o with
    | some t => simp [transcriptStep, isTurnDone]
    | none =>
        cases i with
        | some t => simp [transcriptStep, isTurnDone]
        | none => simp [transcriptStep, isTurnDone]
  · simp at h

/-- A step on a message with `turnComplete` delivers the buffers with
that message's fragments appended, resets both buffers, emits the
turn-completion event last, and emits exactly one such event. -/
lemma transcriptStep_turnDone (ts : TranscriptState) (m : ServerMessage)
    (h : m.turnComplete = true) :
    (transcriptStep ts m).1 = ⟨"", ""⟩ ∧
    (transcriptStep ts m).2.getLast?
      = some (TranscriptEvent.turnDone (ts.currentInput ++ appendedInput m)
          (ts.currentOutput ++ appendedOutput m)) ∧
    (transcriptStep ts m).2.filter isTurnDone
      = [TranscriptEvent.turnDone (ts.currentInput ++ appendedInput m)
          (ts.currentOutput ++ appendedOutput m)] := by
  rcases m with ⟨o, i, tc⟩
  cases tc
  · simp at h
  · cases o with
    | some t => simp [transcriptStep, appendedInput, appendedOutput,
        String.append_empty, isTurnDone, List.getLast?_concat]
    | none =>
        cases i with
        | some t => simp [transcriptStep, appendedInput, appendedOutput,
            String.append_empty, isTurnDone, List.getLast?_concat]
        | none => simp [transcriptStep, appendedInput, appendedOutput,
            String.append_empty, isTurnDone, List.getLast?_concat]

/-- Running messages without `turnComplete` accumulates exactly the
concatenation of the contributed fragments, and completes no turn. -/
lemma transcriptRun_state (ms : List ServerMessage) :
    ∀ ts : TranscriptState, (∀ m ∈ ms, m.turnComplete = false) →
    (transcriptRun ts ms).1
      = ⟨ts.currentInput ++ concatAll (ms.map appendedInput),
         ts.currentOutput ++ concatAll (ms.map appendedOutput)⟩ ∧
    (transcriptRun ts ms).2.filter isTurnDone = [] := by
  induction ms with
  | nil =>
      intro ts _
      simp [transcriptRun, concatAll, String.append_empty]
  | cons m rest ih =>
      intro ts hms
      have hm : m.turnComplete = false := hms m (List.mem_cons_self m rest)
      have hrest : ∀ g ∈ rest, g.turnComplete = false :=
        fun g hg => hms g (List.mem_cons_of_mem m hg)
      have h1 := transcriptStep_state ts m hm
      have h2 := ih (transcriptStep ts m).1 hrest
      constructor
      · show (transcriptRun (transcriptStep ts m).1 rest).1 = _
        rw [h2.1, h1]
        simp [concatAll, String.append_assoc]
      · show ((transcriptStep ts m).2
            ++ (transcriptRun (transcriptStep ts m).1 rest).2).filter
              isTurnDone = []
        rw [List.filter_append, transcriptStep_no_turnDone ts m hm, h2.2]
        rfl

/-- C5: when a turn-complete message `mt` arrives after fragment
messages `ms` (none of which completes a turn), starting from empty
buffers, the turn-complete callback receives exactly the in-order
concatenation of the input-direction fragments appended and, separately,
of the output-direction fragments appended since session start (or the
previous completion, which also leaves the buffers in this empty
state); exactly one turn completion fires, and both buffers are empty
afterward. -/
theorem turnComplete_delivers_exact_concat (ms : List ServerMessage)
    (mt : ServerMessage) (hms : ∀ m ∈ ms, m.turnComplete = false)
    (hmt : mt.turnComplete = true) :
    (transcriptRun ⟨"", ""⟩ (ms ++ [mt])).1 = ⟨"", ""⟩ ∧
    (transcriptRun ⟨"", ""⟩ (ms ++ [mt])).2.getLast?
      = some (TranscriptEvent.turnDone
          (concatAll ((ms ++ [mt]).map appendedInput))
          (concatAll ((ms ++ [mt]).map appendedOutput))) ∧
    (transcriptRun ⟨"", ""⟩ (ms ++ [mt])).2.filter isTurnDone
      = [TranscriptEvent.turnDone
          (concatAll ((ms ++ [mt]).map appendedInput))
          (concatAll ((ms ++ [mt]).map appendedOutput))] := by
  have hrun := transcriptRun_state ms ⟨"", ""⟩ hms
  have hsplit : ∀ ts : TranscriptState, ∀ l1 l2 : List ServerMessage,
      transcriptRun ts (l1 ++ l2)
        = ((transcriptRun (transcriptRun ts l1).1 l2).1,
           (transcriptRun ts l1).2
             ++ (transcriptRun (transcriptRun ts l1).1 l2).2) := by
    intro ts l1
    induction l1 generalizing ts with
    | nil => intro l2; simp [transcriptRun]
    | cons m rest ih =>
        intro l2
        show ((transcriptRun (transcriptStep ts m).1 (rest ++ l2)).1,
            (transcriptStep ts m).2
              ++ (transcriptRun (transcriptStep ts m).1 (rest ++ l2)).2) = _
        rw [ih (transcriptStep ts m).1 l2]
        show _ = ((transcriptRun (transcriptRun (transcriptStep ts m).1
              rest).1 l2).1,
            ((transcriptStep ts m).2
                ++ (transcriptRun (transcriptStep ts m).1 rest).2)
              ++ (transcriptRun (transcriptRun (transcriptStep ts m).1
                  rest).1 l2).2)
        rw [List.append_assoc]
  have hin : (transcriptRun ⟨"", ""⟩ ms).1.currentInput
      = concatAll (ms.map appendedInput) := by
    rw [hrun.1]; exact String.empty_append _
  have hout : (transcriptRun ⟨"", ""⟩ ms).1.currentOutput
      = concatAll (ms.map appendedOutput) := by
    rw [hrun.1]; exact String.empty_append _
  have hstep := transcriptStep_turnDone (transcriptRun ⟨"", ""⟩ ms).1 mt hmt
  have hconcatIn : (transcriptRun ⟨"", ""⟩ ms).1.currentInput
        ++ appendedInput mt
      = concatAll ((ms ++ [mt]).map appendedInput) := by
    rw [hin, List.map_append, concatAll_append]
    simp [concatAll, String.append_empty]
  have hconcatOut : (transcriptRun ⟨"", ""⟩ ms).1.currentOutput
        ++ appendedOutput mt
      = concatAll ((ms ++ [mt]).map appendedOutput) := by
    rw [hout, List.map_append, concatAll_append]
    simp [concatAll, String.append_empty]
  rw [hsplit ⟨"", ""⟩ ms [mt]]
  refine ⟨?_, ?_, ?_⟩
  · show (transcriptRun (transcriptRun ⟨"", ""⟩ ms).1 [mt]).1 = _
    show (transcriptStep (transcriptRun ⟨"", ""⟩ ms).1 mt).1 = _
    exact hstep.1
  · show ((transcriptRun ⟨"", ""⟩ ms).2
        ++ (transcriptRun (transcriptRun ⟨"", ""⟩ ms).1 [mt]).2).getLast? = _
    have h2 : (transcriptRun (transcriptRun ⟨"", ""⟩ ms).1 [mt]).2
        = (transcriptStep (transcriptRun ⟨"", ""⟩ ms).1 mt).2 := by
      simp [transcriptRun]
    rw [h2]
    have hlast := hstep.2.1
    rw [hconcatIn, hconcatOut] at hlast
    rcases List.eq_nil_or_concat
        (transcriptStep (transcriptRun ⟨"", ""⟩ ms).1 mt).2 with hnil | hcat
    · rw [hnil] at hlast
      simp at hlast
    · rcases hcat with ⟨l, e, hle⟩
      rw [hle] at hlast ⊢
      rw [List.concat_eq_append] at hlast ⊢
      rw [List.getLast?_concat] at hlast
      rw [← List.append_assoc, List.getLast?_concat]
      exact hlast
  · show ((transcriptRun ⟨"", ""⟩ ms).2
        ++ (transcriptRun (transcriptRun ⟨"", ""⟩ ms).1 [mt]).2).filter
          isTurnDone = _
    have h2 : (transcriptRun (transcriptRun ⟨"", ""⟩ ms).1 [mt]).2
        = (transcriptStep (transcriptRun ⟨"", ""⟩ ms).1 mt).2 := by
      simp [transcriptRun]
    rw [h2, List.filter_append, hrun.2, hstep.2.2, hconcatIn, hconcatOut]
    rfl

/-- C5 witness: one output fragment `"Hi "`, one input fragment
`"yo"`, then a bare turn-complete message: the callback receives
`("yo", "Hi ")` and the buffers are reset. -/
theorem turnComplete_delivers_exact_concat_witness :
    (transcriptRun ⟨"", ""⟩
        [⟨some "Hi ", none, false⟩, ⟨none, some "yo", false⟩,
         ⟨none, none, true⟩]).1 = ⟨"", ""⟩ ∧
    (transcriptRun ⟨"", ""⟩
        [⟨some "Hi ", none, false⟩, ⟨none, some "yo", false⟩,
         ⟨none, none, true⟩]).2.getLast?
      = some (TranscriptEvent.turnDone
          (concatAll ((([⟨some "Hi ", none, false⟩, ⟨none, some "yo", false⟩]
                : List ServerMessage)
              ++ ([⟨none, none, true⟩] : List ServerMessage)).map appendedInput))
          (concatAll ((([⟨some "Hi ", none, false⟩, ⟨none, some "yo", false⟩]
                : List ServerMessage)
              ++ ([⟨none, none, true⟩] : List ServerMessage)).map appendedOutput))) := by
  have h := turnComplete_delivers_exact_concat
    [⟨some "Hi ", none, false⟩, ⟨none, some "yo", false⟩]
    ⟨none, none, true⟩ (by intro m hm; fin_cases hm <;> rfl) rfl
  exact ⟨h.1, h.2.1⟩

/-- C10: a message carrying both an output-transcription fragment and
an input-transcription fragment appends only the output fragment (and
reports only it); the input fragment is discarded and the input
buffer is untouched. -/
theorem both_fragments_input_discarded (ts : TranscriptState)
    (o i : String) :
    (transcriptStep ts ⟨some o, some i, false⟩).1.currentOutput
        = ts.currentOutput ++ o ∧
    (transcriptStep ts ⟨some o, some i, false⟩).1.currentInput
        = ts.currentInput ∧
    (transcriptStep ts ⟨some o, some i, false⟩).2
        = [TranscriptEvent.transcription (ts.currentOutput ++ o) false] := by
  refine ⟨rfl, rfl, rfl⟩

end EchoOS
